import Mathlib

/-!
# Benchmark harness `go/main.go`

A shallow embedding of the Go program `src/go/main.go` (functions `Must` and
`main`) together with the properties of its effect sequence.

The program talks to four external collaborators: the argument vector
`os.Args`, the clock (`time.Now`, `time.Since`), the file system
(`os.ReadFile`) and the transformation operation (`goldmark.Convert`).  They
are gathered in an environment `Env`; a run of `main` is a pure function of
the environment and yields the ordered list of effects it performed, the way
the process ended, the final contents of the output sink and the duration
that was computed.
-/

namespace GoBench

/-! ## Data model -/

/-- A Go byte slice, by contents. -/
abbrev Bytes := List UInt8

/-- A Go `error` value, by its description. -/
abbrev GoError := String

/-- The two output streams of the process. -/
inductive Fd where
  | stdout
  | stderr
  deriving DecidableEq, Repr

/-- Observable effects of a run, in program order. -/
inductive Event where
  /-- The clock was read and returned monotonic reading `t` (nanoseconds). -/
  | clockRead (t : Int)
  /-- Call of `os.ReadFile path`. -/
  | readFile (path : String)
  /-- Call number `call` (0-based) of `goldmark.Convert(input, sink)`; `sink`
  is the contents of the builder when the call starts. -/
  | convert (call : Nat) (input sink : Bytes)
  /-- The text `text` was written to stream `fd`. -/
  | write (fd : Fd) (text : String)
  deriving DecidableEq, Repr

/-- How the process ends. -/
inductive Outcome where
  /-- Function `main` returned: exit status 0. -/
  | exit0
  /-- Termination by `panic(err)`: the run-time system prints the panic message
  and exits with status 2.  That message belongs to the outcome; it is not an
  effect of `main` and is not in the trace. -/
  | panicErr (e : GoError)
  /-- Run-time panic "index out of range [index] with length length". -/
  | indexOutOfRange (index length : Nat)
  deriving DecidableEq, Repr

/-- What one call of `goldmark.Convert(source, w)` leaves behind: the contents
of the writer after the call and the returned error (`none` is `nil`). -/
structure ConvertResult where
  sink : Bytes
  err : Option GoError
  deriving DecidableEq, Repr

/-- The external collaborators of `main`.

* `args` is `os.Args` (program name first);
* `clock n` is the monotonic reading returned by the `n`-th clock read of the
  process (`n = 0` for `time.Now()`, `n = 1` for the read inside `time.Since`);
* `readFile` is `os.ReadFile`, returning the pair `(data, err)`;
* `convert n source sink` is the `n`-th invocation (0-based) of
  `goldmark.Convert`: the operation is a black box that may keep state of its
  own, so its behaviour may depend on how often it has been invoked; it only
  reads `source`;
* `durString` is `time.Duration.String`. -/
structure Env where
  args : List String
  clock : Nat → Int
  readFile : String → Bytes × Option GoError
  convert : Nat → Bytes → Bytes → ConvertResult
  durString : Int → String

/-! ## `time.Since` on monotonic readings -/

/-- Two's-complement wrap of an integer into the `int64` range. -/
def wrapInt64 (x : Int) : Int :=
  (x + 9223372036854775808) % 18446744073709551616 - 9223372036854775808

/-- The largest `time.Duration`, `1<<63 - 1`. -/
def maxDuration : Int := 9223372036854775807

/-- The smallest `time.Duration`, `-1 << 63`. -/
def minDuration : Int := -9223372036854775808

/-- The subtraction `time.Since` performs on two monotonic readings: `int64`
subtraction, saturated when the exact difference is out of range. -/
def subMono (t u : Int) : Int :=
  let d := wrapInt64 (t - u)
  if d < 0 ∧ t > u then maxDuration
  else if d > 0 ∧ t < u then minDuration
  else d

/-! ## The program -/

/-- Go: `func Must[T any](t T, err error) T`.  A panic is the `error` case of
the result. -/
def Must {α : Type} (r : α × Option GoError) : Except GoError α :=
  match r.2 with
  | some err => Except.error err
  | none => Except.ok r.1

/-- State of the repetition loop when it is left. -/
structure LoopResult where
  /-- The `convert` effects, in order. -/
  events : List Event
  /-- Number of invocations made. -/
  calls : Nat
  /-- Contents of the builder. -/
  sink : Bytes
  /-- The error the loop panicked with, if any. -/
  err : Option GoError
  deriving DecidableEq, Repr

/-- The loop `for range 1000 { err := goldmark.Convert(file, buf); if err != nil
{ panic(err) } }` with `remaining` iterations to go, `n` invocations already
made and the builder holding `sink`. -/
def repeatConvert (convert : Nat → Bytes → Bytes → ConvertResult) (file : Bytes) :
    (remaining : Nat) → (n : Nat) → (sink : Bytes) → LoopResult
  | 0, n, sink => { events := [], calls := n, sink := sink, err := none }
  | r + 1, n, sink =>
    let res := convert n file sink
    match res.err with
    | some err =>
      { events := [Event.convert n file sink], calls := n + 1, sink := res.sink,
        err := some err }
    | none =>
      let rest := repeatConvert convert file r (n + 1) res.sink
      { events := Event.convert n file sink :: rest.events, calls := rest.calls,
        sink := rest.sink, err := rest.err }

/-- The fixed repetition count of the loop in `main`. -/
def repetitions : Nat := 1000

/-- Result of one run of the process. -/
structure Run where
  /-- The effects performed, in order. -/
  trace : List Event
  /-- How the process ended. -/
  outcome : Outcome
  /-- Final contents of the `strings.Builder`. -/
  sink : Bytes
  /-- The value of `time.Since(s)`, when it was computed. -/
  elapsed : Option Int
  deriving DecidableEq, Repr

/-- Go: `func main()`.

```
filename := os.Args[1]
s := time.Now()
buf := &strings.Builder{}
file := Must(os.ReadFile(filename))
for range 1000 { err := goldmark.Convert(file, buf); if err != nil { panic(err) } }
println(time.Since(s).String())
```

The builtin `println` writes its operand followed by a newline to standard
error. -/
def main (env : Env) : Run :=
  match env.args.get? 1 with
  | none =>
    { trace := [], outcome := Outcome.indexOutOfRange 1 env.args.length, sink := [],
      elapsed := none }
  | some filename =>
    let s := env.clock 0
    let buf : Bytes := []
    match Must (env.readFile filename) with
    | Except.error err =>
      { trace := [Event.clockRead s, Event.readFile filename],
        outcome := Outcome.panicErr err, sink := buf, elapsed := none }
    | Except.ok file =>
      let lp := repeatConvert env.convert file repetitions 0 buf
      match lp.err with
      | some err =>
        { trace := [Event.clockRead s, Event.readFile filename] ++ lp.events,
          outcome := Outcome.panicErr err, sink := lp.sink, elapsed := none }
      | none =>
        let now := env.clock 1
        let d := subMono now s
        { trace := [Event.clockRead s, Event.readFile filename] ++ lp.events ++
            [Event.clockRead now, Event.write Fd.stderr (env.durString d ++ "\n")],
          outcome := Outcome.exit0, sink := lp.sink, elapsed := some d }

/-! ## Observations on traces -/

/-- Is the effect an invocation of the transformation operation? -/
def Event.isConvert : Event → Bool
  | Event.convert _ _ _ => true
  | _ => false

/-- Is the effect a clock read? -/
def Event.isClockRead : Event → Bool
  | Event.clockRead _ => true
  | _ => false

/-- Is the effect a file read? -/
def Event.isReadFile : Event → Bool
  | Event.readFile _ => true
  | _ => false

/-- Is the effect a write to an output stream? -/
def Event.isWrite : Event → Bool
  | Event.write _ _ => true
  | _ => false

/-- Number of invocations of the transformation operation in a trace. -/
def convertCalls (tr : List Event) : Nat := tr.countP Event.isConvert

/-- Number of clock reads in a trace. -/
def clockReads (tr : List Event) : Nat := tr.countP Event.isClockRead

/-- Number of file reads in a trace. -/
def fileReads (tr : List Event) : Nat := tr.countP Event.isReadFile

/-- The texts written to stream `fd`, in order. -/
def writesTo (fd : Fd) : List Event → List String
  | [] => []
  | Event.write g text :: rest =>
    if g = fd then text :: writesTo fd rest else writesTo fd rest
  | _ :: rest => writesTo fd rest

/-- The invocations of the transformation operation in a trace, in order. -/
def invocations (tr : List Event) : List Event := tr.filter Event.isConvert

/-- Position of the first effect satisfying `p`, if there is one. -/
def firstIndex (p : Event → Bool) : List Event → Option Nat
  | [] => none
  | ev :: rest => if p ev then some 0 else (firstIndex p rest).map (· + 1)

/-- The file read comes before the first clock read of the trace. -/
def readPrecedesTiming (tr : List Event) : Bool :=
  match firstIndex Event.isReadFile tr, firstIndex Event.isClockRead tr with
  | some i, some j => decide (i < j)
  | _, _ => false

/-- The byte sequence made of `n` copies of `o`. -/
def copies (n : Nat) (o : Bytes) : Bytes :=
  match n with
  | 0 => []
  | k + 1 => copies k o ++ o

/-! ## A concrete environment -/

/-- The document of the scenario, the UTF-8 bytes of "# Title\n\nBody text.". -/
def sampleDoc : Bytes :=
  [35, 32, 84, 105, 116, 108, 101, 10, 10, 66, 111, 100, 121, 32, 116, 101, 120, 116, 46]

/-- A sample environment: one positional argument naming an existing file, a
clock ticking one millisecond per read, and a transformation that copies its
input to the sink and always succeeds. -/
def sampleEnv : Env where
  args := ["bench", "doc.md"]
  clock := fun n => 1 + 1000000 * (n : Int)
  readFile := fun p =>
    if p = "doc.md" then (sampleDoc, none)
    else ([], some ("open " ++ p ++ ": no such file or directory"))
  convert := fun _ source sink => { sink := sink ++ source, err := none }
  durString := fun d => toString d ++ "ns"

/-- The sample environment with a transformation that fails on its `k`-th
invocation (1-based) and succeeds on all others. -/
def failingEnv (k : Nat) : Env :=
  { sampleEnv with
    convert := fun n source sink =>
      if n + 1 = k then { sink := sink, err := some "render error" }
      else { sink := sink ++ source, err := none } }

/-- The sample environment started on a path that does not exist. -/
def missingEnv : Env := { sampleEnv with args := ["bench", "nope.md"] }

/-- The sample environment started without positional argument. -/
def noArgEnv : Env := { sampleEnv with args := ["bench"] }

/-! ## The repetition loop -/

theorem repeatConvert_events_shape (convert : Nat → Bytes → Bytes → ConvertResult)
    (file : Bytes) (r n : Nat) (sink : Bytes) :
    ∀ ev ∈ (repeatConvert convert file r n sink).events,
      ∃ k s, ev = Event.convert k file s := by
  induction r generalizing n sink with
  | zero => intro ev hev; simp [repeatConvert] at hev
  | succ r ih =>
    intro ev hev
    unfold repeatConvert at hev
    cases hres : (convert n file sink).err with
    | some err =>
      simp only [hres, List.mem_singleton] at hev
      exact ⟨n, sink, hev⟩
    | none =>
      simp only [hres, List.mem_cons] at hev
      rcases hev with h | h
      · exact ⟨n, sink, h⟩
      · exact ih _ _ ev h

theorem repeatConvert_events_isConvert (convert : Nat → Bytes → Bytes → ConvertResult)
    (file : Bytes) (r n : Nat) (sink : Bytes) :
    ∀ ev ∈ (repeatConvert convert file r n sink).events, ev.isConvert = true := by
  intro ev hev
  obtain ⟨k, s, rfl⟩ := repeatConvert_events_shape convert file r n sink ev hev
  rfl

theorem repeatConvert_calls (convert : Nat → Bytes → Bytes → ConvertResult)
    (file : Bytes) (r n : Nat) (sink : Bytes) :
    (repeatConvert convert file r n sink).calls =
      n + (repeatConvert convert file r n sink).events.length := by
  induction r generalizing n sink with
  | zero => simp [repeatConvert]
  | succ r ih =>
    unfold repeatConvert
    cases hres : (convert n file sink).err with
    | some err => simp [hres]
    | none => simp only [hres, List.length_cons]; rw [ih]; omega

/-- A loop that is left without error has made all its iterations. -/
theorem repeatConvert_length_of_ok (convert : Nat → Bytes → Bytes → ConvertResult)
    (file : Bytes) (r n : Nat) (sink : Bytes)
    (h : (repeatConvert convert file r n sink).err = none) :
    (repeatConvert convert file r n sink).events.length = r := by
  induction r generalizing n sink with
  | zero => simp [repeatConvert]
  | succ r ih =>
    unfold repeatConvert at h ⊢
    cases hres : (convert n file sink).err with
    | some err => simp [hres] at h
    | none =>
      simp only [hres] at h
      simp only [hres, List.length_cons]
      rw [ih _ _ h]

/-- When every invocation succeeds the loop is left without error. -/
theorem repeatConvert_ok (convert : Nat → Bytes → Bytes → ConvertResult)
    (file : Bytes) (r n : Nat) (sink : Bytes)
    (hok : ∀ i, i < r → ∀ s, (convert (n + i) file s).err = none) :
    (repeatConvert convert file r n sink).err = none := by
  induction r generalizing n sink with
  | zero => simp [repeatConvert]
  | succ r ih =>
    unfold repeatConvert
    have h0 := hok 0 (Nat.succ_pos r) sink
    simp only [Nat.add_zero] at h0
    simp only [h0]
    apply ih
    intro i hi s
    have := hok (i + 1) (Nat.succ_lt_succ hi) s
    rwa [show n + (i + 1) = n + 1 + i by omega] at this

/-- When the invocations `n .. n+j-1` succeed and invocation `n+j` fails, the
loop stops right after that invocation. -/
theorem repeatConvert_fail (convert : Nat → Bytes → Bytes → ConvertResult)
    (file : Bytes) (r n j : Nat) (sink : Bytes) (e : GoError) (hj : j < r)
    (hok : ∀ i, i < j → ∀ s, (convert (n + i) file s).err = none)
    (hfail : ∀ s, (convert (n + j) file s).err = some e) :
    (repeatConvert convert file r n sink).err = some e ∧
      (repeatConvert convert file r n sink).events.length = j + 1 := by
  induction r generalizing n j sink with
  | zero => omega
  | succ r ih =>
    unfold repeatConvert
    cases j with
    | zero =>
      have h0 := hfail sink
      simp only [Nat.add_zero] at h0
      simp [h0]
    | succ j =>
      have h0 := hok 0 (Nat.succ_pos j) sink
      simp only [Nat.add_zero] at h0
      simp only [h0, List.length_cons]
      have hrec := ih (n + 1) j (convert n file sink).sink (by omega)
        (fun i hi s => by
          have := hok (i + 1) (Nat.succ_lt_succ hi) s
          rwa [show n + (i + 1) = n + 1 + i by omega] at this)
        (fun s => by
          have := hfail s
          rwa [show n + (j + 1) = n + 1 + j by omega] at this)
      exact ⟨hrec.1, by rw [hrec.2]⟩

theorem convertCalls_of_all (l : List Event) (h : ∀ ev ∈ l, ev.isConvert = true) :
    convertCalls l = l.length := by
  unfold convertCalls
  exact List.countP_eq_length.mpr h

/-! ## The four ways through `main` -/

theorem main_of_no_arg (env : Env) (h : env.args.get? 1 = none) :
    main env = { trace := [], outcome := Outcome.indexOutOfRange 1 env.args.length,
                 sink := [], elapsed := none } := by
  unfold main
  rw [h]

theorem main_of_read_error (env : Env) (path : String) (data : Bytes) (e : GoError)
    (hargs : env.args.get? 1 = some path) (hread : env.readFile path = (data, some e)) :
    main env = { trace := [Event.clockRead (env.clock 0), Event.readFile path],
                 outcome := Outcome.panicErr e, sink := [], elapsed := none } := by
  unfold main
  rw [hargs]
  simp [Must, hread]

theorem main_of_loop_error (env : Env) (path : String) (file : Bytes) (e : GoError)
    (hargs : env.args.get? 1 = some path) (hread : env.readFile path = (file, none))
    (hloop : (repeatConvert env.convert file repetitions 0 []).err = some e) :
    main env =
      { trace := [Event.clockRead (env.clock 0), Event.readFile path] ++
          (repeatConvert env.convert file repetitions 0 []).events,
        outcome := Outcome.panicErr e,
        sink := (repeatConvert env.convert file repetitions 0 []).sink,
        elapsed := none } := by
  unfold main
  rw [hargs]
  simp [Must, hread, hloop]

theorem main_of_loop_ok (env : Env) (path : String) (file : Bytes)
    (hargs : env.args.get? 1 = some path) (hread : env.readFile path = (file, none))
    (hloop : (repeatConvert env.convert file repetitions 0 []).err = none) :
    main env =
      { trace := [Event.clockRead (env.clock 0), Event.readFile path] ++
          (repeatConvert env.convert file repetitions 0 []).events ++
          [Event.clockRead (env.clock 1),
           Event.write Fd.stderr
             (env.durString (subMono (env.clock 1) (env.clock 0)) ++ "\n")],
        outcome := Outcome.exit0,
        sink := (repeatConvert env.convert file repetitions 0 []).sink,
        elapsed := some (subMono (env.clock 1) (env.clock 0)) } := by
  unfold main
  rw [hargs]
  simp [Must, hread, hloop]

/-- A run that ends with exit status 0 went through the whole program. -/
theorem main_exit0_inv (env : Env) (h : (main env).outcome = Outcome.exit0) :
    ∃ path file, env.args.get? 1 = some path ∧ env.readFile path = (file, none) ∧
      (repeatConvert env.convert file repetitions 0 []).err = none := by
  cases hargs : env.args.get? 1 with
  | none => rw [main_of_no_arg env hargs] at h; simp at h
  | some path =>
    rcases hread : env.readFile path with ⟨file, rerr⟩
    cases rerr with
    | some e => rw [main_of_read_error env path file e hargs hread] at h; simp at h
    | none =>
      cases hloop : (repeatConvert env.convert file repetitions 0 []).err with
      | some e => rw [main_of_loop_error env path file e hargs hread hloop] at h; simp at h
      | none => exact ⟨path, file, rfl, hread, hloop⟩

theorem convertCalls_frame (pre post evs : List Event)
    (hpre : ∀ ev ∈ pre, ev.isConvert = false) (hpost : ∀ ev ∈ post, ev.isConvert = false)
    (hevs : ∀ ev ∈ evs, ev.isConvert = true) :
    convertCalls (pre ++ evs ++ post) = evs.length := by
  have h1 : convertCalls pre = 0 := by
    unfold convertCalls
    rw [List.countP_eq_zero]
    intro ev hev
    simp [hpre ev hev]
  have h2 : convertCalls post = 0 := by
    unfold convertCalls
    rw [List.countP_eq_zero]
    intro ev hev
    simp [hpost ev hev]
  have h3 := convertCalls_of_all evs hevs
  unfold convertCalls at *
  rw [List.countP_append, List.countP_append, h1, h2, h3]
  omega

theorem writesTo_append (fd : Fd) (l₁ l₂ : List Event) :
    writesTo fd (l₁ ++ l₂) = writesTo fd l₁ ++ writesTo fd l₂ := by
  induction l₁ with
  | nil => simp [writesTo]
  | cons ev rest ih =>
    cases ev with
    | write g text =>
      by_cases hg : g = fd
      · simp [writesTo, hg, ih]
      · simp [writesTo, hg, ih]
    | clockRead t => simpa [writesTo] using ih
    | readFile q => simpa [writesTo] using ih
    | convert c i k => simpa [writesTo] using ih

theorem writesTo_of_all_convert (fd : Fd) (l : List Event)
    (h : ∀ ev ∈ l, ev.isConvert = true) : writesTo fd l = [] := by
  induction l with
  | nil => rfl
  | cons ev rest ih =>
    have hev := h ev (List.mem_cons_self _ _)
    have hrest := ih (fun x hx => h x (List.mem_cons_of_mem _ hx))
    cases ev with
    | convert c i k => simpa [writesTo] using hrest
    | clockRead t => simp [Event.isConvert] at hev
    | readFile q => simp [Event.isConvert] at hev
    | write g text => simp [Event.isConvert] at hev

theorem getLast_of_report (pre : List Event) (a b : Event) :
    (pre ++ [a, b]).getLast? = some b := by
  have : pre ++ [a, b] = (pre ++ [a]) ++ [b] := by simp
  rw [this, List.getLast?_concat]

theorem clockReads_of_all_convert (l : List Event) (h : ∀ ev ∈ l, ev.isConvert = true) :
    clockReads l = 0 := by
  unfold clockReads
  rw [List.countP_eq_zero]
  intro ev hev
  have := h ev hev
  cases ev <;> simp_all [Event.isConvert, Event.isClockRead]

theorem fileReads_of_all_convert (l : List Event) (h : ∀ ev ∈ l, ev.isConvert = true) :
    fileReads l = 0 := by
  unfold fileReads
  rw [List.countP_eq_zero]
  intro ev hev
  have := h ev hev
  cases ev <;> simp_all [Event.isConvert, Event.isReadFile]

theorem invocations_frame (a b c d : Event) (evs : List Event)
    (ha : a.isConvert = false) (hb : b.isConvert = false) (hc : c.isConvert = false)
    (hd : d.isConvert = false) (hevs : ∀ ev ∈ evs, ev.isConvert = true) :
    invocations ([a, b] ++ evs ++ [c, d]) = evs := by
  unfold invocations
  have hf : evs.filter Event.isConvert = evs := List.filter_eq_self.mpr hevs
  simp [List.filter_cons, ha, hb, hc, hd, hf]

theorem subMono_nonneg (t u : Int) (h : u ≤ t) : 0 ≤ subMono t u := by
  unfold subMono wrapInt64 maxDuration minDuration
  simp only []
  split_ifs <;> omega

theorem subMono_eq_sub (t u : Int) (ht0 : 0 ≤ t) (ht : t < 9223372036854775808)
    (hu0 : 0 ≤ u) (hu : u < 9223372036854775808) : subMono t u = t - u := by
  unfold subMono wrapInt64 maxDuration minDuration
  simp only []
  split_ifs <;> omega

theorem sampleEnv_loop_ok :
    (repeatConvert sampleEnv.convert sampleDoc repetitions 0 []).err = none :=
  repeatConvert_ok sampleEnv.convert sampleDoc repetitions 0 [] (fun _ _ _ => rfl)

theorem sampleEnv_run :
    main sampleEnv =
      { trace := [Event.clockRead 1, Event.readFile "doc.md"] ++
          (repeatConvert sampleEnv.convert sampleDoc repetitions 0 []).events ++
          [Event.clockRead 1000001, Event.write Fd.stderr "1000000ns\n"],
        outcome := Outcome.exit0,
        sink := (repeatConvert sampleEnv.convert sampleDoc repetitions 0 []).sink,
        elapsed := some 1000000 } := by
  rw [main_of_loop_ok sampleEnv "doc.md" sampleDoc rfl rfl sampleEnv_loop_ok]
  have hd : subMono (sampleEnv.clock 1) (sampleEnv.clock 0) = 1000000 := by decide
  rw [hd]
  rfl

theorem sampleEnv_exit0 : (main sampleEnv).outcome = Outcome.exit0 := by
  rw [sampleEnv_run]

theorem sampleEnv_clock_mono : ∀ i j : Nat, i ≤ j → sampleEnv.clock i ≤ sampleEnv.clock j := by
  intro i j h
  show 1 + 1000000 * (i : Int) ≤ 1 + 1000000 * (j : Int)
  omega

theorem sampleEnv_clock_range :
    ∀ n : Nat, n < 2 → 0 ≤ sampleEnv.clock n ∧ sampleEnv.clock n < 9223372036854775808 := by
  intro n h
  show 0 ≤ 1 + 1000000 * (n : Int) ∧ 1 + 1000000 * (n : Int) < 9223372036854775808
  omega

/-! ## Repetition count and failure paths -/

/-- C1: when the file loads and the transformation operation succeeds on every
call, one run of `main` invokes the operation exactly 1000 times, ends with exit
status 0, and the last effect of the run, after all invocations, is the report
of the computed duration. -/
theorem main_invokes_exactly_1000 (env : Env) (path : String) (file : Bytes)
    (hargs : env.args.get? 1 = some path) (hread : env.readFile path = (file, none))
    (hok : ∀ n s, (env.convert n file s).err = none) :
    convertCalls (main env).trace = 1000 ∧
      convertCalls (main env).trace ≠ 999 ∧ convertCalls (main env).trace ≠ 1001 ∧
      (main env).outcome = Outcome.exit0 ∧
      ∃ d, (main env).elapsed = some d ∧
        (main env).trace.getLast? = some (Event.write Fd.stderr (env.durString d ++ "\n")) ∧
        ∃ calls, calls.length = 1000 ∧ (∀ ev ∈ calls, ev.isConvert = true) ∧
          (main env).trace =
            [Event.clockRead (env.clock 0), Event.readFile path] ++ calls ++
              [Event.clockRead (env.clock 1),
               Event.write Fd.stderr (env.durString d ++ "\n")] := by
  have hloop : (repeatConvert env.convert file repetitions 0 []).err = none :=
    repeatConvert_ok env.convert file repetitions 0 [] (fun i _ s => hok (0 + i) s)
  have hlen := repeatConvert_length_of_ok env.convert file repetitions 0 [] hloop
  have hall := repeatConvert_events_isConvert env.convert file repetitions 0 []
  have hcount : convertCalls (main env).trace = 1000 := by
    rw [main_of_loop_ok env path file hargs hread hloop]
    simp only
    rw [convertCalls_frame _ _ _ (by simp [Event.isConvert]) (by simp [Event.isConvert]) hall,
      hlen]
    rfl
  refine ⟨hcount, by omega, by omega, ?_, ?_⟩
  · rw [main_of_loop_ok env path file hargs hread hloop]
  · refine ⟨subMono (env.clock 1) (env.clock 0), ?_, ?_, ?_⟩
    · rw [main_of_loop_ok env path file hargs hread hloop]
    · rw [main_of_loop_ok env path file hargs hread hloop]
      exact getLast_of_report _ _ _
    · refine ⟨(repeatConvert env.convert file repetitions 0 []).events, hlen, hall, ?_⟩
      rw [main_of_loop_ok env path file hargs hread hloop]

/-- C2: for `1 ≤ k ≤ 1000`, when the file loads and the operation succeeds on
calls `1 .. k-1` and fails with error `e` on call `k`, the run invokes the
operation exactly `k` times, ends by `panic(e)`, reads the clock no second time,
computes no duration and writes nothing to either output stream. -/
theorem main_fails_fast (env : Env) (path : String) (file : Bytes) (k : Nat) (e : GoError)
    (hargs : env.args.get? 1 = some path) (hread : env.readFile path = (file, none))
    (hk1 : 1 ≤ k) (hk : k ≤ 1000)
    (hok : ∀ n, n + 1 < k → ∀ s, (env.convert n file s).err = none)
    (hfail : ∀ s, (env.convert (k - 1) file s).err = some e) :
    convertCalls (main env).trace = k ∧
      (main env).outcome = Outcome.panicErr e ∧
      (main env).elapsed = none ∧
      (∀ fd text, Event.write fd text ∉ (main env).trace) ∧
      writesTo Fd.stdout (main env).trace = [] ∧
      writesTo Fd.stderr (main env).trace = [] := by
  obtain ⟨hloop, hlen⟩ := repeatConvert_fail env.convert file repetitions 0 (k - 1) [] e
    (by unfold repetitions; omega)
    (fun i hi s => by rw [Nat.zero_add]; exact hok i (by omega) s)
    (fun s => by rw [Nat.zero_add]; exact hfail s)
  have hall := repeatConvert_events_isConvert env.convert file repetitions 0 []
  have hshape := repeatConvert_events_shape env.convert file repetitions 0 []
  rw [main_of_loop_error env path file e hargs hread hloop]
  simp only
  refine ⟨?_, trivial, trivial, ?_, ?_, ?_⟩
  · have := convertCalls_frame [Event.clockRead (env.clock 0), Event.readFile path] []
      _ (by simp [Event.isConvert]) (by simp) hall
    rw [List.append_nil] at this
    rw [this, hlen]
    omega
  · intro fd text hmem
    simp only [List.cons_append, List.nil_append, List.mem_cons] at hmem
    rcases hmem with h | h | h
    · cases h
    · cases h
    · obtain ⟨c, s, hc⟩ := hshape _ h
      cases hc
  · rw [writesTo_append, writesTo_of_all_convert _ _ hall]
    rfl
  · rw [writesTo_append, writesTo_of_all_convert _ _ hall]
    rfl

theorem main_invokes_exactly_1000_witness :
    sampleEnv.args.get? 1 = some "doc.md" ∧
      sampleEnv.readFile "doc.md" = (sampleDoc, none) ∧
      convertCalls (main sampleEnv).trace = 1000 ∧
      (main sampleEnv).outcome = Outcome.exit0 :=
  have h := main_invokes_exactly_1000 sampleEnv "doc.md" sampleDoc rfl rfl (fun _ _ => rfl)
  ⟨rfl, rfl, h.1, h.2.2.2.1⟩

theorem main_fails_fast_witness :
    convertCalls (main (failingEnv 3)).trace = 3 ∧
      (main (failingEnv 3)).outcome = Outcome.panicErr "render error" ∧
      writesTo Fd.stderr (main (failingEnv 3)).trace = [] :=
  have h := main_fails_fast (failingEnv 3) "doc.md" sampleDoc 3 "render error" rfl rfl
    (by decide) (by decide)
    (fun n hn s => by
      have hne : ¬ (n = 2) := by omega
      simp [failingEnv, hne])
    (fun s => by simp [failingEnv])
  ⟨h.1, h.2.1, h.2.2.2.2.2⟩

/-- C3: when reading the input file fails with error `e`, `Must` panics with
`e`, so the run ends by `panic(e)`; the transformation operation is never
invoked, no duration is computed and nothing is written to either stream. -/
theorem main_read_failure_is_fatal (env : Env) (path : String) (data : Bytes) (e : GoError)
    (hargs : env.args.get? 1 = some path) (hread : env.readFile path = (data, some e)) :
    Must (env.readFile path) = Except.error e ∧
      (main env).outcome = Outcome.panicErr e ∧
      convertCalls (main env).trace = 0 ∧
      (∀ n b s, Event.convert n b s ∉ (main env).trace) ∧
      (main env).elapsed = none ∧
      (∀ fd text, Event.write fd text ∉ (main env).trace) ∧
      writesTo Fd.stdout (main env).trace = [] ∧
      writesTo Fd.stderr (main env).trace = [] := by
  rw [main_of_read_error env path data e hargs hread]
  refine ⟨by simp [Must, hread], rfl, rfl, ?_, rfl, ?_, rfl, rfl⟩
  · intro n b s h
    simp at h
  · intro fd text h
    simp at h

theorem main_read_failure_is_fatal_witness :
    missingEnv.readFile "nope.md" =
        ([], some "open nope.md: no such file or directory") ∧
      (main missingEnv).outcome =
        Outcome.panicErr "open nope.md: no such file or directory" ∧
      convertCalls (main missingEnv).trace = 0 :=
  have h := main_read_failure_is_fatal missingEnv "nope.md" []
    "open nope.md: no such file or directory" rfl rfl
  ⟨rfl, h.2.1, h.2.2.1⟩

/-! ## Argument indexing -/

/-- C10: with only the program name in the argument list, `os.Args[1]` is out of
range and the run aborts with no effect at all (no clock read, no file read, no
invocation, no write); with at least one positional argument the indexing
succeeds, the run does not end by an index panic, and the one path handed to
`os.ReadFile` is the first positional argument. -/
theorem main_argument_indexing (env : Env) :
    (env.args.length = 1 →
      (main env).outcome = Outcome.indexOutOfRange 1 1 ∧ (main env).trace = [] ∧
        (main env).elapsed = none) ∧
    (2 ≤ env.args.length →
      ∃ path, env.args.get? 1 = some path ∧
        (∀ i len, (main env).outcome ≠ Outcome.indexOutOfRange i len) ∧
        (main env).trace.get? 1 = some (Event.readFile path) ∧
        ∀ q, Event.readFile q ∈ (main env).trace → q = path) := by
  constructor
  · intro hlen
    have hnone : env.args.get? 1 = none := by
      apply List.get?_eq_none.mpr
      omega
    rw [main_of_no_arg env hnone, hlen]
    exact ⟨rfl, rfl, rfl⟩
  · intro hlen
    have hlt : 1 < env.args.length := by omega
    refine ⟨env.args.get ⟨1, hlt⟩, List.get?_eq_get hlt, ?_⟩
    have hargs : env.args.get? 1 = some (env.args.get ⟨1, hlt⟩) := List.get?_eq_get hlt
    generalize env.args.get ⟨1, hlt⟩ = path at hargs
    rcases hread : env.readFile path with ⟨file, rerr⟩
    cases rerr with
    | some e =>
      rw [main_of_read_error env path file e hargs hread]
      refine ⟨(by intro i len h; cases h), rfl, ?_⟩
      intro q hq
      simp at hq
      exact hq
    | none =>
      have hshape := repeatConvert_events_shape env.convert file repetitions 0 []
      cases hloop : (repeatConvert env.convert file repetitions 0 []).err with
      | some e =>
        rw [main_of_loop_error env path file e hargs hread hloop]
        refine ⟨(by intro i len h; cases h), rfl, ?_⟩
        intro q hq
        simp only [List.cons_append, List.nil_append, List.mem_cons] at hq
        rcases hq with h | h | h
        · cases h
        · cases h; rfl
        · obtain ⟨c, s, hc⟩ := hshape _ h
          cases hc
      | none =>
        rw [main_of_loop_ok env path file hargs hread hloop]
        refine ⟨(by intro i len h; cases h), rfl, ?_⟩
        intro q hq
        simp only [List.cons_append, List.nil_append, List.mem_cons, List.mem_append,
          List.mem_singleton, List.not_mem_nil, or_false] at hq
        rcases hq with h | h | h | h | h
        · cases h
        · cases h; rfl
        · obtain ⟨c, s, hc⟩ := hshape _ h
          cases hc
        · cases h
        · cases h

theorem main_argument_indexing_witness :
    (noArgEnv.args.length = 1 ∧ (main noArgEnv).trace = []) ∧
    (2 ≤ sampleEnv.args.length ∧
      ∃ path, sampleEnv.args.get? 1 = some path ∧
        (main sampleEnv).trace.get? 1 = some (Event.readFile path)) :=
  ⟨⟨rfl, ((main_argument_indexing noArgEnv).1 rfl).2.1⟩,
   ⟨by decide,
    match (main_argument_indexing sampleEnv).2 (by decide) with
    | ⟨path, h1, _, h3, _⟩ => ⟨path, h1, h3⟩⟩⟩

/-! ## Timing -/

/-- C5: in every run that ends with exit status 0 the clock is read exactly
twice; the trace is the first clock read and the file read, then exactly 1000
invocations of the operation with no other effect among them, then the second
clock read and the report.  With both readings valid monotonic readings
(non-negative `int64` nanosecond counts) the reported value is the second
reading minus the first. -/
theorem clock_read_twice_around_loop (env : Env)
    (hsucc : (main env).outcome = Outcome.exit0)
    (h0 : 0 ≤ env.clock 0 ∧ env.clock 0 < 9223372036854775808)
    (h1 : 0 ≤ env.clock 1 ∧ env.clock 1 < 9223372036854775808) :
    clockReads (main env).trace = 2 ∧
      (main env).elapsed = some (env.clock 1 - env.clock 0) ∧
      ∃ path calls, calls.length = 1000 ∧ (∀ ev ∈ calls, ev.isConvert = true) ∧
        clockReads calls = 0 ∧
        (main env).trace =
          [Event.clockRead (env.clock 0), Event.readFile path] ++ calls ++
            [Event.clockRead (env.clock 1),
             Event.write Fd.stderr (env.durString (env.clock 1 - env.clock 0) ++ "\n")] := by
  obtain ⟨path, file, hargs, hread, hloop⟩ := main_exit0_inv env hsucc
  have hlen := repeatConvert_length_of_ok env.convert file repetitions 0 [] hloop
  have hall := repeatConvert_events_isConvert env.convert file repetitions 0 []
  have hzero := clockReads_of_all_convert _ hall
  have hd := subMono_eq_sub (env.clock 1) (env.clock 0) h1.1 h1.2 h0.1 h0.2
  rw [main_of_loop_ok env path file hargs hread hloop, hd]
  refine ⟨?_, rfl, path, _, hlen, hall, hzero, rfl⟩
  unfold clockReads at hzero ⊢
  simp [List.countP_append, List.countP_cons, Event.isClockRead, hzero]

theorem clock_read_twice_around_loop_witness :
    (main sampleEnv).outcome = Outcome.exit0 ∧
      clockReads (main sampleEnv).trace = 2 ∧
      (main sampleEnv).elapsed = some (sampleEnv.clock 1 - sampleEnv.clock 0) :=
  have h := clock_read_twice_around_loop sampleEnv sampleEnv_exit0
    (sampleEnv_clock_range 0 (by decide)) (sampleEnv_clock_range 1 (by decide))
  ⟨sampleEnv_exit0, h.1, h.2.1⟩

/-- C9: in every run that ends with exit status 0 under a monotonic clock
(no read returns less than an earlier read), the duration computed by
`time.Since` from the end and start readings, which is the one reported, is
non-negative. -/
theorem elapsed_nonneg_of_monotonic (env : Env)
    (hmono : ∀ i j : Nat, i ≤ j → env.clock i ≤ env.clock j)
    (hsucc : (main env).outcome = Outcome.exit0) :
    ∃ d, (main env).elapsed = some d ∧ d = subMono (env.clock 1) (env.clock 0) ∧ 0 ≤ d ∧
      (main env).trace.getLast? = some (Event.write Fd.stderr (env.durString d ++ "\n")) := by
  obtain ⟨path, file, hargs, hread, hloop⟩ := main_exit0_inv env hsucc
  rw [main_of_loop_ok env path file hargs hread hloop]
  exact ⟨_, rfl, rfl, subMono_nonneg _ _ (hmono 0 1 (by decide)), getLast_of_report _ _ _⟩

theorem elapsed_nonneg_of_monotonic_witness :
    (main sampleEnv).outcome = Outcome.exit0 ∧
      ∃ d, (main sampleEnv).elapsed = some d ∧ 0 ≤ d :=
  match elapsed_nonneg_of_monotonic sampleEnv sampleEnv_clock_mono sampleEnv_exit0 with
  | ⟨d, h1, _, h3, _⟩ => ⟨sampleEnv_exit0, d, h1, h3⟩

/-- C4, as stated, fails: in the run of the sample environment, which ends with
exit status 0, the first clock read is effect 0 and the file read is effect 1,
so the file read does not precede the start of timing. -/
theorem read_before_timing_counterexample :
    (main sampleEnv).outcome = Outcome.exit0 ∧
      firstIndex Event.isClockRead (main sampleEnv).trace = some 0 ∧
      firstIndex Event.isReadFile (main sampleEnv).trace = some 1 ∧
      readPrecedesTiming (main sampleEnv).trace = false := by
  rw [sampleEnv_run]
  exact ⟨rfl, rfl, rfl, rfl⟩

/-- C4, amended: in every run that gets past the argument indexing the
start-timestamp clock read is the first effect and the file read is the second,
so timing begins before the file is read; every invocation of the operation
comes after both, and a reported duration is measured from that first reading,
hence spans the file load. -/
theorem timing_starts_before_read (env : Env) (path : String)
    (hargs : env.args.get? 1 = some path) :
    (main env).trace.get? 0 = some (Event.clockRead (env.clock 0)) ∧
      (main env).trace.get? 1 = some (Event.readFile path) ∧
      firstIndex Event.isClockRead (main env).trace = some 0 ∧
      firstIndex Event.isReadFile (main env).trace = some 1 ∧
      readPrecedesTiming (main env).trace = false ∧
      (∀ i ev, (main env).trace.get? i = some ev → ev.isConvert = true → 2 ≤ i) ∧
      (∀ d, (main env).elapsed = some d → d = subMono (env.clock 1) (env.clock 0)) := by
  have key : ∀ rest : List Event,
      ([Event.clockRead (env.clock 0), Event.readFile path] ++ rest).get? 0 =
          some (Event.clockRead (env.clock 0)) ∧
        ([Event.clockRead (env.clock 0), Event.readFile path] ++ rest).get? 1 =
          some (Event.readFile path) ∧
        firstIndex Event.isClockRead
          ([Event.clockRead (env.clock 0), Event.readFile path] ++ rest) = some 0 ∧
        firstIndex Event.isReadFile
          ([Event.clockRead (env.clock 0), Event.readFile path] ++ rest) = some 1 ∧
        readPrecedesTiming
          ([Event.clockRead (env.clock 0), Event.readFile path] ++ rest) = false ∧
        (∀ i ev, ([Event.clockRead (env.clock 0), Event.readFile path] ++ rest).get? i =
          some ev → ev.isConvert = true → 2 ≤ i) := by
    intro rest
    refine ⟨rfl, rfl, rfl, rfl, rfl, ?_⟩
    intro i ev hget hconv
    match i, hget with
    | 0, hget =>
      simp at hget
      subst hget
      simp [Event.isConvert] at hconv
    | 1, hget =>
      simp at hget
      subst hget
      simp [Event.isConvert] at hconv
    | i + 2, _ => omega
  rcases hread : env.readFile path with ⟨file, rerr⟩
  cases rerr with
  | some e =>
    rw [main_of_read_error env path file e hargs hread]
    obtain ⟨k1, k2, k3, k4, k5, k6⟩ := key []
    exact ⟨k1, k2, k3, k4, k5, k6, by intro d h; cases h⟩
  | none =>
    cases hloop : (repeatConvert env.convert file repetitions 0 []).err with
    | some e =>
      rw [main_of_loop_error env path file e hargs hread hloop]
      obtain ⟨k1, k2, k3, k4, k5, k6⟩ := key (repeatConvert env.convert file repetitions 0 []).events
      exact ⟨k1, k2, k3, k4, k5, k6, by intro d h; cases h⟩
    | none =>
      rw [main_of_loop_ok env path file hargs hread hloop]
      obtain ⟨k1, k2, k3, k4, k5, k6⟩ := key
        ((repeatConvert env.convert file repetitions 0 []).events ++
          [Event.clockRead (env.clock 1),
           Event.write Fd.stderr
             (env.durString (subMono (env.clock 1) (env.clock 0)) ++ "\n")])
      simp only [List.append_assoc] at k1 k2 k3 k4 k5 k6 ⊢
      exact ⟨k1, k2, k3, k4, k5, k6, by intro d h; cases h; rfl⟩

theorem timing_starts_before_read_witness :
    sampleEnv.args.get? 1 = some "doc.md" ∧
      (main sampleEnv).trace.get? 0 = some (Event.clockRead (sampleEnv.clock 0)) ∧
      (main sampleEnv).trace.get? 1 = some (Event.readFile "doc.md") :=
  have h := timing_starts_before_read sampleEnv "doc.md" rfl
  ⟨rfl, h.1, h.2.1⟩

/-! ## Reporting -/

/-- C7, as stated, fails: the run of the sample environment ends with exit
status 0 and writes nothing at all to standard output; its one line goes to
standard error. -/
theorem report_on_stdout_counterexample :
    (main sampleEnv).outcome = Outcome.exit0 ∧
      writesTo Fd.stdout (main sampleEnv).trace = [] ∧
      (¬ ∃ line, writesTo Fd.stdout (main sampleEnv).trace = [line]) ∧
      writesTo Fd.stderr (main sampleEnv).trace = ["1000000ns\n"] := by
  have hall := repeatConvert_events_isConvert sampleEnv.convert sampleDoc repetitions 0 []
  have hout : writesTo Fd.stdout (main sampleEnv).trace = [] := by
    rw [sampleEnv_run]
    simp only
    rw [writesTo_append, writesTo_append, writesTo_of_all_convert _ _ hall]
    rfl
  refine ⟨sampleEnv_exit0, hout, ?_, ?_⟩
  · rintro ⟨line, h⟩
    rw [hout] at h
    cases h
  · rw [sampleEnv_run]
    simp only
    rw [writesTo_append, writesTo_append, writesTo_of_all_convert _ _ hall]
    rfl

/-- C7, amended: in every run that ends with exit status 0, `main` writes
nothing to standard output; it performs exactly one write, to standard error,
of one line: the formatted duration between the two clock reads, followed by a
newline. -/
theorem report_goes_to_stderr (env : Env) (hsucc : (main env).outcome = Outcome.exit0) :
    writesTo Fd.stdout (main env).trace = [] ∧
      (main env).trace.countP Event.isWrite = 1 ∧
      ∃ d, (main env).elapsed = some d ∧ d = subMono (env.clock 1) (env.clock 0) ∧
        writesTo Fd.stderr (main env).trace = [env.durString d ++ "\n"] := by
  obtain ⟨path, file, hargs, hread, hloop⟩ := main_exit0_inv env hsucc
  have hall := repeatConvert_events_isConvert env.convert file repetitions 0 []
  have hnow : (repeatConvert env.convert file repetitions 0 []).events.countP Event.isWrite
      = 0 := by
    rw [List.countP_eq_zero]
    intro ev hev
    have := hall ev hev
    cases ev <;> simp_all [Event.isConvert, Event.isWrite]
  rw [main_of_loop_ok env path file hargs hread hloop]
  simp only
  refine ⟨?_, ?_, _, rfl, rfl, ?_⟩
  · rw [writesTo_append, writesTo_append, writesTo_of_all_convert _ _ hall]
    rfl
  · simp [List.countP_append, List.countP_cons, Event.isWrite, hnow]
  · rw [writesTo_append, writesTo_append, writesTo_of_all_convert _ _ hall]
    simp [writesTo]

theorem report_goes_to_stderr_witness :
    (main sampleEnv).outcome = Outcome.exit0 ∧
      writesTo Fd.stdout (main sampleEnv).trace = [] ∧
      (main sampleEnv).trace.countP Event.isWrite = 1 :=
  have h := report_goes_to_stderr sampleEnv sampleEnv_exit0
  ⟨sampleEnv_exit0, h.1, h.2.1⟩

/-! ## Sink and input buffer -/

theorem copies_succ_left (k : Nat) (o : Bytes) : copies (k + 1) o = o ++ copies k o := by
  induction k with
  | zero => simp [copies]
  | succ k ih =>
    show copies (k + 1) o ++ o = o ++ (copies k o ++ o)
    rw [ih, List.append_assoc]

theorem copies_length (k : Nat) (o : Bytes) : (copies k o).length = k * o.length := by
  induction k with
  | zero => simp [copies]
  | succ k ih =>
    have h : copies (k + 1) o = copies k o ++ o := rfl
    rw [h, List.length_append, ih, Nat.succ_mul]

/-- The loop run on an operation that appends `o` on every call: invocation
`i` starts on the initial contents followed by `i` copies of `o`, and the loop
leaves the initial contents followed by `r` copies. -/
theorem repeatConvert_appending (convert : Nat → Bytes → Bytes → ConvertResult)
    (file o : Bytes) (r n : Nat) (sink : Bytes)
    (happ : ∀ m s, convert m file s = { sink := s ++ o, err := none }) :
    (repeatConvert convert file r n sink).err = none ∧
      (repeatConvert convert file r n sink).sink = sink ++ copies r o ∧
      ∀ i, i < r → (repeatConvert convert file r n sink).events.get? i =
        some (Event.convert (n + i) file (sink ++ copies i o)) := by
  induction r generalizing n sink with
  | zero =>
    refine ⟨rfl, by simp [repeatConvert, copies], ?_⟩
    intro i hi
    omega
  | succ r ih =>
    obtain ⟨ih1, ih2, ih3⟩ := ih (n + 1) (sink ++ o)
    unfold repeatConvert
    simp only [happ]
    refine ⟨ih1, ?_, ?_⟩
    · rw [ih2, copies_succ_left, List.append_assoc]
    · intro i hi
      cases i with
      | zero => simp [copies]
      | succ i =>
        have := ih3 i (by omega)
        simp only [List.get?_cons_succ]
        rw [this, copies_succ_left, List.append_assoc]
        congr 2
        omega

/-- C6: for an operation that on the loaded input always succeeds and appends
the same output `o` to the sink, the run ends with exit status 0, its
invocations are exactly 1000, the sink handed to invocation number `i`
(0-based, so repetition `i+1`) holds `i` copies of `o`, and the sink is left
with exactly 1000 copies of `o`, of total length `1000 * |o|`. -/
theorem sink_shared_across_repetitions (env : Env) (path : String) (file o : Bytes)
    (hargs : env.args.get? 1 = some path) (hread : env.readFile path = (file, none))
    (happ : ∀ n s, env.convert n file s = { sink := s ++ o, err := none }) :
    (main env).outcome = Outcome.exit0 ∧
      (invocations (main env).trace).length = 1000 ∧
      (∀ i, i < 1000 → (invocations (main env).trace).get? i =
        some (Event.convert i file (copies i o))) ∧
      (main env).sink = copies 1000 o ∧
      (main env).sink.length = 1000 * o.length := by
  obtain ⟨hloop, hsink, hev⟩ := repeatConvert_appending env.convert file o repetitions 0 [] happ
  have hlen := repeatConvert_length_of_ok env.convert file repetitions 0 [] hloop
  have hall := repeatConvert_events_isConvert env.convert file repetitions 0 []
  rw [main_of_loop_ok env path file hargs hread hloop]
  simp only
  rw [invocations_frame (Event.clockRead _) (Event.readFile _) (Event.clockRead _)
      (Event.write _ _) _ rfl rfl rfl rfl hall, hsink, List.nil_append]
  refine ⟨trivial, hlen, ?_, rfl, copies_length _ _⟩
  intro i hi
  have := hev i hi
  rwa [Nat.zero_add, List.nil_append] at this

theorem sink_shared_across_repetitions_witness :
    (∀ n s, sampleEnv.convert n sampleDoc s = { sink := s ++ sampleDoc, err := none }) ∧
      (main sampleEnv).sink = copies 1000 sampleDoc ∧
      (main sampleEnv).sink.length = 1000 * sampleDoc.length :=
  have h := sink_shared_across_repetitions sampleEnv "doc.md" sampleDoc sampleDoc rfl rfl
    (fun _ _ => rfl)
  ⟨fun _ _ => rfl, h.2.2.2.1, h.2.2.2.2⟩

/-- C8: when the file loads, the run reads a file exactly once, and every
invocation of the operation in the run is handed the byte sequence that read
returned; a run that ends with exit status 0 has 1000 such invocations. -/
theorem input_buffer_loaded_once (env : Env) (path : String) (file : Bytes)
    (hargs : env.args.get? 1 = some path) (hread : env.readFile path = (file, none)) :
    fileReads (main env).trace = 1 ∧
      (∀ q, Event.readFile q ∈ (main env).trace → q = path) ∧
      (∀ n b s, Event.convert n b s ∈ (main env).trace → b = file) ∧
      (∀ ev ∈ invocations (main env).trace, ∃ n s, ev = Event.convert n file s) ∧
      ((main env).outcome = Outcome.exit0 → (invocations (main env).trace).length = 1000) := by
  have hall := repeatConvert_events_isConvert env.convert file repetitions 0 []
  have hshape := repeatConvert_events_shape env.convert file repetitions 0 []
  have hzero := fileReads_of_all_convert _ hall
  have hmem : ∀ ev, ev ∈ (repeatConvert env.convert file repetitions 0 []).events →
      ∀ n b s, ev = Event.convert n b s → b = file := by
    intro ev hev n b s heq
    obtain ⟨k, t, hk⟩ := hshape ev hev
    rw [hk] at heq
    cases heq
    rfl
  cases hloop : (repeatConvert env.convert file repetitions 0 []).err with
  | some e =>
    rw [main_of_loop_error env path file e hargs hread hloop]
    simp only
    refine ⟨?_, ?_, ?_, ?_, by intro h; cases h⟩
    · unfold fileReads at hzero ⊢
      simp [List.countP_append, List.countP_cons, Event.isReadFile, hzero]
    · intro q hq
      simp only [List.cons_append, List.nil_append, List.mem_cons] at hq
      rcases hq with h | h | h
      · cases h
      · cases h; rfl
      · obtain ⟨c, s, hc⟩ := hshape _ h
        cases hc
    · intro n b s hq
      simp only [List.cons_append, List.nil_append, List.mem_cons] at hq
      rcases hq with h | h | h
      · cases h
      · cases h
      · exact hmem _ h n b s rfl
    · intro ev hev
      unfold invocations at hev
      rw [List.mem_filter] at hev
      obtain ⟨hin, hconv⟩ := hev
      simp only [List.cons_append, List.nil_append, List.mem_cons] at hin
      rcases hin with h | h | h
      · subst h; simp [Event.isConvert] at hconv
      · subst h; simp [Event.isConvert] at hconv
      · exact hshape _ h
  | none =>
    have hlen := repeatConvert_length_of_ok env.convert file repetitions 0 [] hloop
    rw [main_of_loop_ok env path file hargs hread hloop]
    simp only
    rw [invocations_frame (Event.clockRead _) (Event.readFile _) (Event.clockRead _)
      (Event.write _ _) _ rfl rfl rfl rfl hall]
    refine ⟨?_, ?_, ?_, hshape, fun _ => hlen⟩
    · unfold fileReads at hzero ⊢
      simp [List.countP_append, List.countP_cons, Event.isReadFile, hzero]
    · intro q hq
      simp only [List.cons_append, List.nil_append, List.mem_cons, List.mem_append,
        List.not_mem_nil, or_false] at hq
      rcases hq with h | h | h | h | h
      · cases h
      · cases h; rfl
      · obtain ⟨c, s, hc⟩ := hshape _ h
        cases hc
      · cases h
      · cases h
    · intro n b s hq
      simp only [List.cons_append, List.nil_append, List.mem_cons, List.mem_append,
        List.not_mem_nil, or_false] at hq
      rcases hq with h | h | h | h | h
      · cases h
      · cases h
      · exact hmem _ h n b s rfl
      · cases h
      · cases h

theorem input_buffer_loaded_once_witness :
    sampleEnv.readFile "doc.md" = (sampleDoc, none) ∧
      fileReads (main sampleEnv).trace = 1 ∧
      (∀ n b s, Event.convert n b s ∈ (main sampleEnv).trace → b = sampleDoc) :=
  have h := input_buffer_loaded_once sampleEnv "doc.md" sampleDoc rfl rfl
  ⟨rfl, h.1, h.2.2.1⟩

end GoBench
